import Mathlib

/-!
Shallow embedding of the media/content synchronization core of the
lectureVideoPlayer repository (a browser-based lecture video player):

* `src/src/stores/mediaControls.ts` — playback/control store (volume, mute,
  page cursor, seeking);
* `src/src/stores/contentStore.ts` — page list, search state, match cursor;
* `src/src/utils/text.ts` — base64 → UTF-8 decoding of page text;
* `src/src/components/ThumbnailBar.vue` — `findPageForTimestamp` binary search;
* the `useKeyboard` composable — key-combo matching and prioritized dispatch.

JavaScript numbers are modelled by `JSNum`: an exact rational together with
the three non-finite values `NaN`, `Infinity` and `-Infinity`.  Comparison,
`Math.min`/`Math.max`/`Math.round` and arithmetic follow the ECMAScript
semantics on these values (`NaN` compares false, propagates through
arithmetic, and poisons `Math.min`/`Math.max`/`Math.round`).
-/

/-- Model of a JavaScript number: NaN, ±Infinity, or a finite value
(represented exactly as a rational). -/
inductive JSNum where
  | nan : JSNum
  | ninf : JSNum
  | pinf : JSNum
  | num : ℚ → JSNum
deriving DecidableEq

namespace JSNum

/-- ECMAScript `Number.isFinite`. -/
def isFinite : JSNum → Bool
  | num _ => true
  | _ => false

/-- ECMAScript `<`: false whenever either operand is NaN. -/
def jlt : JSNum → JSNum → Bool
  | nan, _ => false
  | _, nan => false
  | ninf, ninf => false
  | ninf, _ => true
  | pinf, _ => false
  | num _, ninf => false
  | num _, pinf => true
  | num a, num b => decide (a < b)

/-- ECMAScript `<=`: false whenever either operand is NaN. -/
def jle : JSNum → JSNum → Bool
  | nan, _ => false
  | _, nan => false
  | ninf, _ => true
  | pinf, pinf => true
  | pinf, _ => false
  | num _, ninf => false
  | num _, pinf => true
  | num a, num b => decide (a ≤ b)

/-- ECMAScript `>`. -/
def jgt (a b : JSNum) : Bool := jlt b a

/-- ECMAScript strict equality `===` on numbers: NaN equals nothing. -/
def strictEq : JSNum → JSNum → Bool
  | nan, _ => false
  | _, nan => false
  | a, b => decide (a = b)

/-- ECMAScript `+` on numbers. -/
def jadd : JSNum → JSNum → JSNum
  | nan, _ => nan
  | _, nan => nan
  | pinf, ninf => nan
  | ninf, pinf => nan
  | pinf, _ => pinf
  | _, pinf => pinf
  | ninf, _ => ninf
  | _, ninf => ninf
  | num a, num b => num (a + b)

/-- ECMAScript `Math.round`: floor of x + 1/2 for finite x; NaN and the
infinities are returned unchanged. -/
def jround : JSNum → JSNum
  | num q => num ((⌊q + 1/2⌋ : ℤ) : ℚ)
  | x => x

/-- ECMAScript `Math.min` of two numbers: NaN if either operand is NaN. -/
def jmin : JSNum → JSNum → JSNum
  | nan, _ => nan
  | _, nan => nan
  | ninf, _ => ninf
  | _, ninf => ninf
  | pinf, b => b
  | a, pinf => a
  | num a, num b => num (min a b)

/-- ECMAScript `Math.max` of two numbers: NaN if either operand is NaN. -/
def jmax : JSNum → JSNum → JSNum
  | nan, _ => nan
  | _, nan => nan
  | pinf, _ => pinf
  | _, pinf => pinf
  | ninf, b => b
  | a, ninf => a
  | num a, num b => num (max a b)

/-- Division of a JavaScript number by the nonzero constant 100
(used for pushing a 0..100 volume onto the element as 0..1). -/
def div100 : JSNum → JSNum
  | num q => num (q / 100)
  | x => x

end JSNum

deriving instance DecidableEq for Except

/-- The `playbackState` enum of the media-controls store. -/
inductive PlaybackState where
  | paused : PlaybackState
  | playing : PlaybackState
  | ended : PlaybackState
  | error : PlaybackState
deriving DecidableEq

/-- The observable state of an attached `HTMLMediaElement`, as far as the
store operations modelled here write to it: playback position in seconds,
volume in 0..1 and the muted flag. -/
structure ElemState where
  currentTime : ℚ
  volume : JSNum
  muted : Bool
deriving DecidableEq

/-- State of the `mediaControls` pinia store (`src/src/stores/mediaControls.ts`).
`pageCount` is only ever assigned a list length by the app
(`media.pageCount = content.pageModel.length` in ThumbnailBar.vue) and is
modelled as an integer; fields a store action can set to an arbitrary
JavaScript number are `JSNum`.  `mediaEl` is `none` when no element is
attached. -/
structure MCState where
  volume : JSNum
  playbackSpeed : ℚ
  muted : Bool
  prevVolume : JSNum
  pageCount : ℤ
  currentPage : JSNum
  currentTime : JSNum
  totalTime : ℚ
  playbackState : PlaybackState
  seeking : Bool
  mediaEl : Option ElemState
deriving DecidableEq

/-- The store's initial state (the `state: () => ({...})` block). -/
def mcInit : MCState :=
  { volume := .num 100
    playbackSpeed := 1
    muted := false
    prevVolume := .num 100
    pageCount := 0
    currentPage := .num 1
    currentTime := .num 0
    totalTime := 0
    playbackState := .paused
    seeking := false
    mediaEl := none }

namespace MediaControls

/-- Action `seekTo(milliseconds)`: returns without touching anything when the
argument is not finite; otherwise stores the (unclamped) millisecond value in
`currentTime` and, if an element is attached, writes the clamped position
`max 0 (ms / 1000)` seconds to it. -/
def seekTo (milliseconds : JSNum) (s : MCState) : MCState :=
  if milliseconds.isFinite = false then s
  else
    match milliseconds with
    | .num q =>
        { s with
          currentTime := .num q
          mediaEl := s.mediaEl.map fun el => { el with currentTime := max 0 (q / 1000) } }
    | _ => s

/-- Action `setVolume(value)`: computes
`Math.max(0, Math.min(100, Math.round(value)))`, clears `muted`, records the
result in `prevVolume` when positive, stores it in `volume`, and pushes
volume and muted onto the attached element if any. -/
def setVolume (value : JSNum) (s : MCState) : MCState :=
  let v := JSNum.jmax (.num 0) (JSNum.jmin (.num 100) value.jround)
  { s with
    muted := false
    prevVolume := if JSNum.jgt v (.num 0) then v else s.prevVolume
    volume := v
    mediaEl := s.mediaEl.map fun el => { el with volume := v.div100, muted := false } }

/-- Action `toggleMute()`: when muted, restores `prevVolume` if positive, else
the current `volume` if positive, else 50, and unmutes; when unmuted, records
the current `volume` in `prevVolume` if positive and mutes.  The element, if
attached, receives the muted flag and the (restored or kept) volume. -/
def toggleMute (s : MCState) : MCState :=
  if s.muted then
    let newVolume :=
      if JSNum.jgt s.prevVolume (.num 0) then s.prevVolume
      else if JSNum.jgt s.volume (.num 0) then s.volume
      else .num 50
    { s with
      volume := newVolume
      muted := false
      mediaEl := s.mediaEl.map fun el => { el with muted := false, volume := newVolume.div100 } }
  else
    { s with
      prevVolume := if JSNum.jgt s.volume (.num 0) then s.volume else s.prevVolume
      muted := true
      mediaEl := s.mediaEl.map fun el => { el with muted := true, volume := s.volume.div100 } }

/-- Action `setPage(page)`: returns `false` without mutating when
`pageCount <= 0`, the argument is not finite or is `0`, is outside
`[1, pageCount]`, or strict-equals the current page; otherwise sets
`currentPage` and returns `true`. -/
def setPage (page : JSNum) (s : MCState) : Bool × MCState :=
  if s.pageCount ≤ 0 ∨ page.isFinite = false ∨ page.strictEq (.num 0) then (false, s)
  else if page.jlt (.num 1) ∨ page.jgt (.num (s.pageCount : ℚ)) ∨ page.strictEq s.currentPage
    then (false, s)
  else (true, { s with currentPage := page })

/-- Action `nextPage()`: `setPage(currentPage + 1)`. -/
def nextPage (s : MCState) : Bool × MCState := setPage (s.currentPage.jadd (.num 1)) s

/-- Action `prevPage()`: `setPage(currentPage - 1)`. -/
def prevPage (s : MCState) : Bool × MCState := setPage (s.currentPage.jadd (.num (-1))) s

end MediaControls

/-- One candidate base64 digit: the value of `c` in the standard alphabet,
or `none` when `c` is not a base64 character. -/
def b64Digit (c : Char) : Option Nat :=
  if 'A' ≤ c ∧ c ≤ 'Z' then some (c.toNat - 65)
  else if 'a' ≤ c ∧ c ≤ 'z' then some (c.toNat - 97 + 26)
  else if '0' ≤ c ∧ c ≤ '9' then some (c.toNat - 48 + 52)
  else if c = '+' then some 62
  else if c = '/' then some 63
  else none

/-- ASCII whitespace, which `atob` removes before decoding. -/
def isB64Whitespace (c : Char) : Bool :=
  c = ' ' ∨ c = '\t' ∨ c = '\n' ∨ c = '\x0c' ∨ c = '\r'

/-- Bytes of the groups of base64 digit values: 4 digits give 3 bytes, a
final group of 3 gives 2 bytes and a final group of 2 gives 1 byte. -/
def b64Groups : List Nat → List Nat
  | a :: b :: c :: d :: rest =>
      (a * 4 + b / 16) :: ((b % 16) * 16 + c / 4) :: ((c % 4) * 64 + d) :: b64Groups rest
  | [a, b] => [a * 4 + b / 16]
  | [a, b, c] => [a * 4 + b / 16, (b % 16) * 16 + c / 4]
  | _ => []

/-- The platform `atob`: WHATWG forgiving-base64 decode.  Removes ASCII
whitespace, strips up to two trailing `=` of a 4-aligned input, and throws
(`Except.error`) when a character is outside the alphabet or the length of
the remaining data is 1 mod 4.  The result is the list of decoded byte
values. -/
def atob (s : String) : Except Unit (List Nat) :=
  let data := s.data.filter fun c => !isB64Whitespace c
  let data :=
    if data.length % 4 = 0 then
      if data.getLast? = some '=' then
        let d := data.dropLast
        if d.getLast? = some '=' then d.dropLast else d
      else data
    else data
  if data.length % 4 = 1 then .error ()
  else if data.any fun c => (b64Digit c).isNone then .error ()
  else .ok (b64Groups (data.map fun c => (b64Digit c).getD 0))

/-- State of the WHATWG UTF-8 decoder (`new TextDecoder('utf-8')` without
`fatal`, which never throws): either expecting a lead byte, or inside a
multi-byte sequence with the code point accumulated so far, the number of
continuation bytes still needed, and the bounds on the next byte. -/
inductive Utf8State where
  | start : Utf8State
  | cont : Nat → Nat → Nat → Nat → Utf8State

/-- Handling of one byte in the decoder's start state: ASCII is emitted,
a well-formed lead byte opens a sequence (with the WHATWG bounds that
exclude overlong encodings and surrogates) and any other byte becomes
U+FFFD. -/
def utf8StartStep (b : Nat) : List Char × Utf8State :=
  if b < 0x80 then ([Char.ofNat b], .start)
  else if 0xC2 ≤ b ∧ b ≤ 0xDF then ([], .cont (b % 0x20) 1 0x80 0xBF)
  else if 0xE0 ≤ b ∧ b ≤ 0xEF then
    ([], .cont (b % 0x10) 2 (if b = 0xE0 then 0xA0 else 0x80) (if b = 0xED then 0x9F else 0xBF))
  else if 0xF0 ≤ b ∧ b ≤ 0xF4 then
    ([], .cont (b % 0x8) 3 (if b = 0xF0 then 0x90 else 0x80) (if b = 0xF4 then 0x8F else 0xBF))
  else ([Char.ofNat 0xFFFD], .start)

/-- The WHATWG replacement-mode UTF-8 decoding loop.  An in-range
continuation byte extends or finishes the sequence; an out-of-range one
emits U+FFFD and is reprocessed as a fresh start byte; input ending inside a
sequence emits U+FFFD.  Never fails. -/
def utf8Run : Utf8State → List Nat → List Char
  | .start, [] => []
  | .cont _ _ _ _, [] => [Char.ofNat 0xFFFD]
  | .start, b :: bs =>
    match utf8StartStep b with
    | (out, st) => out ++ utf8Run st bs
  | .cont cp need lo hi, b :: bs =>
    if lo ≤ b ∧ b ≤ hi then
      if need ≤ 1 then Char.ofNat (cp * 64 + b % 64) :: utf8Run .start bs
      else utf8Run (.cont (cp * 64 + b % 64) (need - 1) 0x80 0xBF) bs
    else
      Char.ofNat 0xFFFD ::
        (match utf8StartStep b with
        | (out, st) => out ++ utf8Run st bs)

/-- UTF-8 decode with replacement, as a string. -/
def utf8Decode (bytes : List Nat) : String := ⟨utf8Run .start bytes⟩

/-- `base64ToUtf8` from `src/src/utils/text.ts`: empty input gives the empty
string; `atob` runs OUTSIDE the function's try/catch, so an invalid base64
input throws to the caller (`Except.error`); the UTF-8 decode inside the try
is a non-fatal `TextDecoder` and cannot throw, so the catch branch that
would return the raw binary string is unreachable. -/
def base64ToUtf8 (base64 : String) : Except Unit String :=
  if base64 = "" then .ok ""
  else (atob base64).map utf8Decode

/-- One entry of the externally supplied page dataset
(`PageModelEncoded` in `src/src/stores/contentStore.ts`). -/
structure PageModelEncoded where
  time : ℚ
  text : String
  thumb : String
deriving DecidableEq

/-- One decoded page (`PageModel` in `src/src/stores/contentStore.ts`). -/
structure PageModel where
  timestamp : JSNum
  image : String
  text : String
deriving DecidableEq

/-- Decoding of one entry in `load()`:
`{timestamp: item.time, image: item.thumb, text: item.text && item.text.length > 0 ? base64ToUtf8(item.text) : ''}`.
An exception from `base64ToUtf8` propagates. -/
def loadPage (item : PageModelEncoded) : Except Unit PageModel :=
  (if item.text.length > 0 then base64ToUtf8 item.text else .ok "").map
    fun t => { timestamp := .num item.time, image := item.thumb, text := t }

/-- The `encodedModel.map(...)` of `load()`: decodes every entry in order; an
exception from any entry aborts the whole load. -/
def loadPages (model : List PageModelEncoded) : Except Unit (List PageModel) :=
  model.mapM loadPage

/-- Per-character lowercasing, modelling `String.prototype.toLowerCase` on
the ASCII range the search feature exercises. -/
def lowerString (s : String) : String := ⟨s.data.map Char.toLower⟩

/-- `String.prototype.includes(sub)`: `sub` occurs contiguously in `s`. -/
def jsIncludes (s sub : String) : Bool :=
  (List.range (s.data.length + 1)).any fun i => sub.data.isPrefixOf (s.data.drop i)

/-- The match test of `search()` for one page:
`page.text && page.text.toLowerCase().includes(searchTerm)`. -/
def pageMatches (searchTerm : String) (page : PageModel) : Bool :=
  page.text ≠ "" && jsIncludes (lowerString page.text) searchTerm

/-- The `pageModel.forEach((page, index) => ...)` scan of `search()`:
collects, in order, the index of every page whose text matches, starting the
index count at `i`. -/
def collectMatches (searchTerm : String) : List PageModel → Nat → List Nat
  | [], _ => []
  | page :: rest, i =>
    if pageMatches searchTerm page then i :: collectMatches searchTerm rest (i + 1)
    else collectMatches searchTerm rest (i + 1)

/-- State of the `content` pinia store (`src/src/stores/contentStore.ts`). -/
structure ContentState where
  lastQuery : String
  matchesTotal : ℤ
  matchesCurrent : ℤ
  pageModel : List PageModel
  videoSource : String
  searchMatches : List Nat
  currentMatchIndex : ℤ
deriving DecidableEq

/-- The content store's initial state. -/
def contentInit : ContentState :=
  { lastQuery := ""
    matchesTotal := 0
    matchesCurrent := 0
    pageModel := []
    videoSource := ""
    searchMatches := []
    currentMatchIndex := -1 }

namespace Content

/-- Action `seekToMatch()`: resolves the current match cursor through
`searchMatches` to a page index, that index to a page, and delegates to the
media store's `seekTo` with the page's timestamp; any out-of-range step is a
silent no-op on the media store. -/
def seekToMatch (cs : ContentState) (ms : MCState) : MCState :=
  if 0 ≤ cs.currentMatchIndex ∧ cs.currentMatchIndex < (cs.searchMatches.length : ℤ) then
    match cs.searchMatches.get? cs.currentMatchIndex.toNat with
    | some pageIndex =>
      if pageIndex < cs.pageModel.length then
        match cs.pageModel.get? pageIndex with
        | some page => MediaControls.seekTo page.timestamp ms
        | none => ms
      else ms
    | none => ms
  else ms

/-- Action `search(query)`: returns at once when the query is the empty
string (the only falsy string); otherwise records the query, rescans the
whole page list for case-insensitive substring matches, resets the counters
and, when there is at least one match, moves the cursor to the first match
and seeks to it. -/
def search (query : String) (cs : ContentState) (ms : MCState) : ContentState × MCState :=
  if query = "" then (cs, ms)
  else
    let searchTerm := lowerString query
    let found := collectMatches searchTerm cs.pageModel 0
    if 0 < found.length then
      let cs1 := { cs with
        lastQuery := query
        searchMatches := found
        currentMatchIndex := 0
        matchesTotal := (found.length : ℤ)
        matchesCurrent := 1 }
      (cs1, seekToMatch cs1 ms)
    else
      let cs1 := { cs with
        lastQuery := query
        searchMatches := found
        currentMatchIndex := -1
        matchesTotal := (found.length : ℤ)
        matchesCurrent := 0 }
      (cs1, ms)

/-- Action `cancelSearch()`: no-op when already clear, otherwise clears the
query and all match state. -/
def cancelSearch (cs : ContentState) : ContentState :=
  if cs.lastQuery = "" ∧ cs.matchesTotal = 0 ∧ cs.matchesCurrent = 0 then cs
  else
    { cs with
      lastQuery := ""
      matchesTotal := 0
      matchesCurrent := 0
      searchMatches := []
      currentMatchIndex := -1 }

/-- Action `findNext()`: no-op without an active query or with zero matches;
otherwise advances the cursor cyclically (JavaScript `%` is truncated
division remainder) and seeks to the newly selected match. -/
def findNext (cs : ContentState) (ms : MCState) : ContentState × MCState :=
  if cs.lastQuery = "" ∨ cs.matchesTotal = 0 then (cs, ms)
  else
    let idx := (cs.currentMatchIndex + 1).tmod cs.matchesTotal
    let cs1 := { cs with currentMatchIndex := idx, matchesCurrent := idx + 1 }
    (cs1, seekToMatch cs1 ms)

/-- Action `findPrev()`: no-op without an active query or with zero matches;
otherwise retreats the cursor with wraparound and seeks to the newly selected
match. -/
def findPrev (cs : ContentState) (ms : MCState) : ContentState × MCState :=
  if cs.lastQuery = "" ∨ cs.matchesTotal = 0 then (cs, ms)
  else
    let idx :=
      if cs.currentMatchIndex ≤ 0 then cs.matchesTotal - 1 else cs.currentMatchIndex - 1
    let cs1 := { cs with currentMatchIndex := idx, matchesCurrent := idx + 1 }
    (cs1, seekToMatch cs1 ms)

end Content

/-- Element lookup `content.pageModel[mid]` generalized to an array that may
hold holes (`none`), so the guard `pageData && ...` of the binary search is
modelled exactly: a hole or an out-of-range index both give `none`. -/
def pageAt (l : List (Option PageModel)) (i : Nat) : Option PageModel :=
  (l.get? i).join

/-- The binary-search loop of `findPageForTimestamp` in
`src/src/components/ThumbnailBar.vue`: `left`/`result` stay non-negative,
`right` may reach -1.  When `pageData` exists and
`pageData.timestamp <= timestamp`, the match is recorded and the search moves
right; otherwise it moves left. -/
def findPageLoop (l : List (Option PageModel)) (timestamp : JSNum) (left : Nat) (right : ℤ)
    (result : Nat) : Nat :=
  if _h : (left : ℤ) ≤ right then
    let mid : Nat := (left + right.toNat) / 2
    match pageAt l mid with
    | some pageData =>
      if pageData.timestamp.jle timestamp then findPageLoop l timestamp (mid + 1) right mid
      else findPageLoop l timestamp left ((mid : ℤ) - 1) result
    | none => findPageLoop l timestamp left ((mid : ℤ) - 1) result
  else result
termination_by (right + 1 - left).toNat
decreasing_by
  all_goals omega

/-- `findPageForTimestamp(timestamp)` from ThumbnailBar.vue: page 1 for an
empty list, otherwise the 1-based conversion of the binary-search result. -/
def findPageForTimestamp (l : List (Option PageModel)) (timestamp : JSNum) : Nat :=
  if l.length = 0 then 1
  else findPageLoop l timestamp 0 ((l.length : ℤ) - 1) 0 + 1

/-- A keyboard event, with the fields `matchKey` and the dispatcher read
(`e.key`, `e.code`, the four modifier flags and `e.repeat`). -/
structure KeyEvent where
  key : String
  code : String
  ctrlKey : Bool
  shiftKey : Bool
  altKey : Bool
  metaKey : Bool
  rep : Bool
deriving DecidableEq

/-- The `repeat` field of a `KeyDef`: `false` (only non-repeat events),
`true` (only repeats), the string `'allow'`, or absent — the last two are
matched by the same fall-through arm of `matchKey`. -/
inductive RepeatSpec where
  | val : Bool → RepeatSpec
  | allow : RepeatSpec
  | unset : RepeatSpec
deriving DecidableEq

/-- A key descriptor (`KeyDef` in the `useKeyboard` composable): every field
optional, `primary` requesting the platform-conventional modifier. -/
structure KeyDef where
  key : Option String := none
  code : Option String := none
  ctrl : Option Bool := none
  shift : Option Bool := none
  alt : Option Bool := none
  meta : Option Bool := none
  rep : RepeatSpec := .unset
  primary : Bool := false
deriving DecidableEq

/-- JavaScript truthiness of an optional string field: present and
non-empty. -/
def optTruthy : Option String → Bool
  | none => false
  | some s => s ≠ ""

/-- `matchKey(e, def)` from the `useKeyboard` composable, with the platform
sniff `isMac()` passed in as a flag.  `primary` resolves to
`!isMac() || def.ctrl === true` for the wanted ctrl state and
`isMac() || def.meta === true` for the wanted meta state; an absent modifier
requirement matches either state; `key`/`code` are compared only when truthy;
the repeat policy filters repeat events last. -/
def matchKey (isMac : Bool) (e : KeyEvent) (d : KeyDef) : Bool :=
  let wantCtrl : Option Bool := if d.primary then some (!isMac || d.ctrl == some true) else d.ctrl
  let wantMeta : Option Bool := if d.primary then some (isMac || d.meta == some true) else d.meta
  let modsOk :=
    (match wantCtrl with | none => true | some b => e.ctrlKey == b) &&
    (match d.shift with | none => true | some b => e.shiftKey == b) &&
    (match d.alt with | none => true | some b => e.altKey == b) &&
    (match wantMeta with | none => true | some b => e.metaKey == b)
  if !modsOk then false
  else
    let keyOk := if optTruthy d.key then d.key == some e.key else true
    let codeOk := if optTruthy d.code then d.code == some e.code else true
    if !keyOk || !codeOk then false
    else
      match d.rep with
      | .val true => e.rep
      | .val false => !e.rep
      | _ => true

/-- A registered key binding (`KeyBinding` in the `useKeyboard` composable),
observed at one fixed event: `keys` after the `Array.isArray` normalization;
`whenVal` the value the optional guard returns at this event (`none` = no
guard); `ret` the handler's return value (`none` models `undefined`/void);
`tag` identifies the binding's handler. -/
structure Binding (α : Type) where
  keys : List KeyDef
  whenVal : Option Bool
  ret : Option Bool
  priority : Option ℤ
  tag : α

/-- The effective priority `b.priority ?? 0`. -/
def prio {α : Type} (b : Binding α) : ℤ := b.priority.getD 0

/-- One binding fires on the event: its guard does not return false
(`if (b.when && !b.when()) continue`) and some of its key descriptors
matches. -/
def bindingFires {α : Type} (isMac : Bool) (e : KeyEvent) (b : Binding α) : Bool :=
  !(b.whenVal == some false) && b.keys.any (matchKey isMac e)

/-- Stable insertion by descending effective priority: the inserted binding
goes before the first element whose priority is not greater than its own, so
among equal priorities the earlier-registered binding stays first. -/
def insertByPrio {α : Type} (b : Binding α) : List (Binding α) → List (Binding α)
  | [] => [b]
  | c :: cs => if prio b < prio c then c :: insertByPrio b cs else b :: c :: cs

/-- The `[...bindings].sort((a, b) => (b.priority ?? 0) - (a.priority ?? 0))`
of the dispatcher: JavaScript `Array.prototype.sort` is a stable sort, so the
result is the stable descending-priority ordering, here as insertion sort. -/
def sortByPrio {α : Type} : List (Binding α) → List (Binding α)
  | [] => []
  | b :: bs => insertByPrio b (sortByPrio bs)

/-- The `for (const b of sorted)` scan: the first binding whose guard passes
and whose key descriptors match, or `none`. -/
def firstBinding {α : Type} (isMac : Bool) (e : KeyEvent) :
    List (Binding α) → Option (Binding α)
  | [] => none
  | b :: bs => if bindingFires isMac e b then some b else firstBinding isMac e bs

/-- The binding-evaluation core of `onKeyDown` in `useKeyboard` (after the
enabled/scope/editable gating): sorts stably by descending priority, invokes
the handler of the first binding that fires and stops; the result is that
handler's tag paired with whether `preventDefault`/`stopPropagation` are
called (`result !== false`).  `none` means no handler was invoked. -/
def dispatchKeyDown {α : Type} (isMac : Bool) (bindings : List (Binding α)) (e : KeyEvent) :
    Option (α × Bool) :=
  (firstBinding isMac e (sortByPrio bindings)).map fun b => (b.tag, !(b.ret == some false))

/-- Iterated `findNext()` on the joint content/media state, for the cyclic
round-trip property. -/
def findNextIter : Nat → ContentState × MCState → ContentState × MCState
  | 0, p => p
  | n + 1, p => findNextIter n (Content.findNext p.1 p.2)

/-- The guarded timestamp test of the binary-search loop at index `i`:
true exactly when an entry exists there (`pageData` truthy) and its
timestamp is `<=` the probed time. -/
def tsLe (l : List (Option PageModel)) (t : JSNum) (i : Nat) : Bool :=
  (pageAt l i).any fun p => p.timestamp.jle t

/-- Element state used by the witness examples: position 3 s, volume 1,
unmuted. -/
def elemEx : ElemState := { currentTime := 3, volume := .num 1, muted := false }

/-- Media store with an element attached, for the witnesses. -/
def mcAttached : MCState := { mcInit with mediaEl := some elemEx }

/-- Media store at volume 75, unmuted, for the mute round-trip witness. -/
def mc75 : MCState := { mcInit with volume := .num 75 }

/-- Media store with 3 pages, for the page-navigation witness. -/
def mc3 : MCState := { mcInit with pageCount := 3 }

/-- A page with the given timestamp and text, for the witness examples. -/
def pageEx (t : ℚ) (txt : String) : PageModel :=
  { timestamp := .num t, image := "", text := txt }

/-- The example page list of the specification's testable-properties
section. -/
def specPages : List PageModel :=
  [pageEx 0 "intro", pageEx 1000 "topic A", pageEx 2000 "topic A detail", pageEx 3000 "summary"]

/-- Content store holding the example page list. -/
def csSpec : ContentState := { contentInit with pageModel := specPages }

/-- Content store after `search("topic a")` on the example page list. -/
def csSearched : ContentState := (Content.search "topic a" csSpec mcInit).1

/-- C3: `seekTo(ms)` is a complete no-op for a non-finite argument; for a
finite argument it stores the unclamped millisecond value (possibly
negative) in `currentTime` while the position written to an attached element
is clamped to at least 0 seconds, and no other field changes. -/
theorem c3_seekTo_clamp_asymmetry (s : MCState) (ms : JSNum) :
    (ms.isFinite = false → MediaControls.seekTo ms s = s) ∧
    ∀ q : ℚ, ms = JSNum.num q →
      (MediaControls.seekTo ms s).currentTime = JSNum.num q ∧
      (MediaControls.seekTo ms s).mediaEl
        = s.mediaEl.map (fun el => { el with currentTime := max 0 (q / 1000) }) ∧
      (∀ el', (MediaControls.seekTo ms s).mediaEl = some el' → 0 ≤ el'.currentTime) ∧
      MediaControls.seekTo ms s
        = { s with
            currentTime := JSNum.num q
            mediaEl := s.mediaEl.map fun el => { el with currentTime := max 0 (q / 1000) } } := by
  constructor
  · intro h
    simp [MediaControls.seekTo, h]
  · rintro q rfl
    refine ⟨rfl, rfl, ?_, rfl⟩
    intro el' h
    have h2 : s.mediaEl.map (fun el => { el with currentTime := max 0 (q / 1000) }) = some el' := h
    rcases Option.map_eq_some'.1 h2 with ⟨el, -, rfl⟩
    exact le_max_left 0 (q / 1000)

/-- C3 witness: seeking to NaN leaves the attached store untouched; seeking
to -5 ms stores the negative value while the element is clamped to 0. -/
theorem c3_seekTo_clamp_asymmetry_witness :
    MediaControls.seekTo JSNum.nan mcAttached = mcAttached ∧
    (MediaControls.seekTo (JSNum.num (-5)) mcAttached).currentTime = JSNum.num (-5) ∧
    ∀ el', (MediaControls.seekTo (JSNum.num (-5)) mcAttached).mediaEl = some el' →
      0 ≤ el'.currentTime :=
  ⟨(c3_seekTo_clamp_asymmetry mcAttached JSNum.nan).1 rfl,
   ((c3_seekTo_clamp_asymmetry mcAttached (JSNum.num (-5))).2 (-5) rfl).1,
   ((c3_seekTo_clamp_asymmetry mcAttached (JSNum.num (-5))).2 (-5) rfl).2.2.1⟩

/-- C7: `toggleMute` is an involution on the (volume, muted) state when the
volume is a positive finite value: mute then unmute returns to unmuted with
the same volume.  Unmuting restores `prevVolume` when positive, else the
current `volume` when positive, else 50. -/
theorem c7_toggleMute_involution (s : MCState) (v : ℚ) (hm : s.muted = false)
    (hv : s.volume = JSNum.num v) (hpos : 0 < v) :
    ((MediaControls.toggleMute (MediaControls.toggleMute s)).muted = false ∧
     (MediaControls.toggleMute (MediaControls.toggleMute s)).volume = JSNum.num v) ∧
    ∀ s' : MCState, s'.muted = true →
      (∀ pv : ℚ, s'.prevVolume = JSNum.num pv → 0 < pv →
        (MediaControls.toggleMute s').volume = JSNum.num pv) ∧
      (s'.prevVolume.jgt (JSNum.num 0) = false →
        ∀ cv : ℚ, s'.volume = JSNum.num cv → 0 < cv →
          (MediaControls.toggleMute s').volume = JSNum.num cv) ∧
      (s'.prevVolume.jgt (JSNum.num 0) = false → s'.volume.jgt (JSNum.num 0) = false →
        (MediaControls.toggleMute s').volume = JSNum.num 50) ∧
      (MediaControls.toggleMute s').muted = false := by
  have hg : JSNum.jgt (JSNum.num v) (JSNum.num 0) = true := by
    simp [JSNum.jgt, JSNum.jlt, hpos]
  constructor
  · have h1 : MediaControls.toggleMute s =
        { s with
          prevVolume := JSNum.num v
          muted := true
          mediaEl := s.mediaEl.map fun el => { el with muted := true, volume := s.volume.div100 } } := by
      rw [MediaControls.toggleMute, hm, hv]
      simp [hg, hv]
    rw [h1, MediaControls.toggleMute]
    simp [hg]
  · intro s' hm'
    refine ⟨?_, ?_, ?_, ?_⟩
    · intro pv hpv hppos
      rw [MediaControls.toggleMute, hm']
      simp [hpv, JSNum.jgt, JSNum.jlt, hppos]
    · intro hnp cv hcv hcpos
      rw [MediaControls.toggleMute, hm']
      simp only [hnp]
      simp [hcv, JSNum.jgt, JSNum.jlt, hcpos]
    · intro hnp hnc
      rw [MediaControls.toggleMute, hm']
      simp only [hnp, hnc]
      simp
    · rw [MediaControls.toggleMute, hm']
      simp

/-- C7 witness: starting unmuted at volume 75, toggling mute twice restores
unmuted volume 75. -/
theorem c7_toggleMute_involution_witness :
    (MediaControls.toggleMute (MediaControls.toggleMute mc75)).muted = false ∧
    (MediaControls.toggleMute (MediaControls.toggleMute mc75)).volume = JSNum.num 75 :=
  (c7_toggleMute_involution mc75 75 rfl rfl (by norm_num)).1

/-- C8 counterexample: the claim quantifies over every input value, but
`setVolume(NaN)` stores NaN — `Math.round`, `Math.min` and `Math.max` all
propagate NaN — so the stored volume is not an integer clamped to [0, 100];
`muted` is still cleared. -/
theorem c8_setVolume_nan_counterexample :
    (MediaControls.setVolume JSNum.nan mcInit).volume = JSNum.nan ∧
    (MediaControls.setVolume JSNum.nan mcInit).muted = false ∧
    ∀ z : ℤ, (MediaControls.setVolume JSNum.nan mcInit).volume ≠ JSNum.num (z : ℚ) := by
  refine ⟨rfl, rfl, ?_⟩
  intro z h
  exact JSNum.noConfusion h

/-- Helper: the three observable effects of one `setVolume` call, given the
value the clamp-and-round pipeline produces. -/
theorem setVolume_run (s : MCState) (value : JSNum) (r : ℚ)
    (hv : JSNum.jmax (JSNum.num 0) (JSNum.jmin (JSNum.num 100) value.jround) = JSNum.num r) :
    (MediaControls.setVolume value s).volume = JSNum.num r ∧
    (MediaControls.setVolume value s).muted = false ∧
    (MediaControls.setVolume value s).prevVolume
      = (if 0 < r then JSNum.num r else s.prevVolume) := by
  unfold MediaControls.setVolume
  simp only [hv]
  simp [JSNum.jgt, JSNum.jlt]

/-- C8 (amended to non-NaN inputs): for every input other than NaN,
`setVolume` stores an integer value clamped to [0, 100] — for a finite input
the rounding of that input —, always clears `muted`, updates `prevVolume`
exactly when the clamped result is positive, and applying it twice yields
the same volume both times with `muted` cleared. -/
theorem c8_setVolume_clamp_round (s : MCState) (value : JSNum) (hnn : value ≠ JSNum.nan) :
    ∃ z : ℤ, 0 ≤ z ∧ z ≤ 100 ∧
      (MediaControls.setVolume value s).volume = JSNum.num (z : ℚ) ∧
      (MediaControls.setVolume value s).muted = false ∧
      ((MediaControls.setVolume value s).prevVolume =
        if 0 < z then JSNum.num (z : ℚ) else s.prevVolume) ∧
      (∀ q : ℚ, value = JSNum.num q → (z : ℚ) = max 0 (min 100 ((⌊q + 1/2⌋ : ℤ) : ℚ))) ∧
      (MediaControls.setVolume value (MediaControls.setVolume value s)).volume
        = JSNum.num (z : ℚ) ∧
      (MediaControls.setVolume value (MediaControls.setVolume value s)).muted = false := by
  have main : ∃ z : ℤ, 0 ≤ z ∧ z ≤ 100 ∧
      (JSNum.jmax (JSNum.num 0) (JSNum.jmin (JSNum.num 100) value.jround) = JSNum.num (z : ℚ)) ∧
      (∀ q : ℚ, value = JSNum.num q → (z : ℚ) = max 0 (min 100 ((⌊q + 1/2⌋ : ℤ) : ℚ))) := by
    cases value with
    | nan => exact absurd rfl hnn
    | ninf =>
      refine ⟨0, le_rfl, by norm_num, ?_, fun q h => JSNum.noConfusion h⟩
      show JSNum.num 0 = JSNum.num ((0 : ℤ) : ℚ)
      norm_num
    | pinf =>
      refine ⟨100, by norm_num, le_rfl, ?_, fun q h => JSNum.noConfusion h⟩
      show JSNum.num (max 0 100) = JSNum.num ((100 : ℤ) : ℚ)
      congr 1
    | num q =>
      refine ⟨max 0 (min 100 ⌊q + 1/2⌋), le_max_left _ _,
        max_le (by norm_num) (min_le_left _ _), ?_, ?_⟩
      · show JSNum.num (max 0 (min 100 ((⌊q + 1/2⌋ : ℤ) : ℚ)))
          = JSNum.num ((max 0 (min 100 ⌊q + 1/2⌋) : ℤ) : ℚ)
        congr 1
        push_cast
        rfl
      · intro q' hq'
        cases hq'
        push_cast
        rfl
  obtain ⟨z, hz0, hz100, hv, hq⟩ := main
  obtain ⟨hvol1, hmut1, hprev1⟩ := setVolume_run s value _ hv
  obtain ⟨hvol2, hmut2, -⟩ := setVolume_run (MediaControls.setVolume value s) value _ hv
  refine ⟨z, hz0, hz100, hvol1, hmut1, ?_, hq, hvol2, hmut2⟩
  rw [hprev1]
  by_cases hp : (0 : ℤ) < z
  · rw [if_pos hp, if_pos (by exact_mod_cast hp)]
  · rw [if_neg hp, if_neg (by exact_mod_cast hp)]

/-- C8 witness: `setVolume(150)` yields a clamped integer volume (and the
claim's hypotheses are satisfiable at the concrete input 150). -/
theorem c8_setVolume_clamp_round_witness :
    ∃ z : ℤ, 0 ≤ z ∧ z ≤ 100 ∧
      (MediaControls.setVolume (JSNum.num 150) mcInit).volume = JSNum.num (z : ℚ) ∧
      (MediaControls.setVolume (JSNum.num 150) mcInit).muted = false ∧
      ((MediaControls.setVolume (JSNum.num 150) mcInit).prevVolume =
        if 0 < z then JSNum.num (z : ℚ) else mcInit.prevVolume) ∧
      (∀ q : ℚ, JSNum.num 150 = JSNum.num q → (z : ℚ) = max 0 (min 100 ((⌊q + 1/2⌋ : ℤ) : ℚ))) ∧
      (MediaControls.setVolume (JSNum.num 150)
          (MediaControls.setVolume (JSNum.num 150) mcInit)).volume = JSNum.num (z : ℚ) ∧
      (MediaControls.setVolume (JSNum.num 150)
          (MediaControls.setVolume (JSNum.num 150) mcInit)).muted = false :=
  c8_setVolume_clamp_round mcInit (JSNum.num 150) (by decide)

/-- C4: evidence for the code bug.  `atob` runs outside the try/catch of
`base64ToUtf8`, so one entry with invalid base64 text ("!!!!") throws to the
caller and aborts the whole load, against both the spec and the function's
own doc comment; a valid entry decodes with timestamp and image copied
unchanged and empty text mapped to the empty string. -/
theorem c4_load_aborts_on_invalid_base64 :
    base64ToUtf8 "!!!!" = Except.error () ∧
    loadPages [{ time := 0, text := "!!!!", thumb := "x" },
               { time := 5, text := "", thumb := "img" }] = Except.error () ∧
    loadPages [{ time := 5, text := "", thumb := "img" },
               { time := 7, text := "aGVsbG8=", thumb := "y" }]
      = Except.ok [{ timestamp := JSNum.num 5, image := "img", text := "" },
                   { timestamp := JSNum.num 7, image := "y", text := "hello" }] := by
  exact ⟨by decide, by decide, by decide⟩

/-- Helper: failure of JavaScript `===` against a finite number is plain
inequality. -/
theorem strictEq_num_false_iff (q : ℚ) (x : JSNum) :
    (JSNum.strictEq (JSNum.num q) x = false) ↔ JSNum.num q ≠ x := by
  cases x <;> simp [JSNum.strictEq]

/-- Helper: success of JavaScript `===` against a finite number is plain
equality. -/
theorem strictEq_num_true (q : ℚ) (x : JSNum) (h : JSNum.strictEq (JSNum.num q) x = true) :
    JSNum.num q = x := by
  cases x <;> simp_all [JSNum.strictEq]

/-- Helper: `setPage` either fails leaving the state alone or succeeds
moving only `currentPage`. -/
theorem setPage_cases (s : MCState) (n : JSNum) :
    MediaControls.setPage n s = (false, s) ∨
    MediaControls.setPage n s = (true, { s with currentPage := n }) := by
  unfold MediaControls.setPage
  split_ifs
  · exact Or.inl rfl
  · exact Or.inl rfl
  · exact Or.inr rfl

/-- Helper: the exact success condition of `setPage`. -/
theorem setPage_fst_iff (s : MCState) (n : JSNum) :
    (MediaControls.setPage n s).1 = true ↔
      (0 < s.pageCount ∧ JSNum.jle (JSNum.num 1) n = true ∧
        JSNum.jle n (JSNum.num (s.pageCount : ℚ)) = true ∧ n ≠ s.currentPage) := by
  cases n with
  | nan =>
    have h : MediaControls.setPage JSNum.nan s = (false, s) := by
      unfold MediaControls.setPage
      rw [if_pos (show s.pageCount ≤ 0 ∨ JSNum.nan.isFinite = false ∨
        JSNum.nan.strictEq (JSNum.num 0) = true from Or.inr (Or.inl (by decide)))]
    rw [h]
    constructor
    · intro hh
      exact absurd hh (by simp)
    · rintro ⟨-, hge, -, -⟩
      have hf : JSNum.jle (JSNum.num 1) JSNum.nan = false := rfl
      rw [hf] at hge
      exact Bool.noConfusion hge
  | ninf =>
    have h : MediaControls.setPage JSNum.ninf s = (false, s) := by
      unfold MediaControls.setPage
      rw [if_pos (show s.pageCount ≤ 0 ∨ JSNum.ninf.isFinite = false ∨
        JSNum.ninf.strictEq (JSNum.num 0) = true from Or.inr (Or.inl (by decide)))]
    rw [h]
    constructor
    · intro hh
      exact absurd hh (by simp)
    · rintro ⟨-, hge, -, -⟩
      have hf : JSNum.jle (JSNum.num 1) JSNum.ninf = false := rfl
      rw [hf] at hge
      exact Bool.noConfusion hge
  | pinf =>
    have h : MediaControls.setPage JSNum.pinf s = (false, s) := by
      unfold MediaControls.setPage
      rw [if_pos (show s.pageCount ≤ 0 ∨ JSNum.pinf.isFinite = false ∨
        JSNum.pinf.strictEq (JSNum.num 0) = true from Or.inr (Or.inl (by decide)))]
    rw [h]
    constructor
    · intro hh
      exact absurd hh (by simp)
    · rintro ⟨-, -, hle, -⟩
      have hf : JSNum.jle JSNum.pinf (JSNum.num (s.pageCount : ℚ)) = false := rfl
      rw [hf] at hle
      exact Bool.noConfusion hle
  | num q =>
    unfold MediaControls.setPage
    split_ifs with h1 h2
    · constructor
      · intro hh
        exact absurd hh (by simp)
      · rintro ⟨hpc, hge, hle, -⟩
        have hq1 : (1 : ℚ) ≤ q := by simpa [JSNum.jle] using hge
        rcases h1 with hpc0 | hfin | hz
        · omega
        · simp [JSNum.isFinite] at hfin
        · have hq0 : JSNum.num q = JSNum.num 0 := strictEq_num_true q _ hz
          simp only [JSNum.num.injEq] at hq0
          rw [hq0] at hq1
          norm_num at hq1
    · constructor
      · intro hh
        exact absurd hh (by simp)
      · rintro ⟨hpc, hge, hle, hne⟩
        have hq1 : (1 : ℚ) ≤ q := by simpa [JSNum.jle] using hge
        have hq2 : q ≤ (s.pageCount : ℚ) := by simpa [JSNum.jle] using hle
        rcases h2 with hlt | hgt | hcur
        · have hx : q < 1 := by simpa [JSNum.jlt] using hlt
          linarith
        · have hx : (s.pageCount : ℚ) < q := by simpa [JSNum.jgt, JSNum.jlt] using hgt
          linarith
        · exact hne (strictEq_num_true q _ hcur)
    · push_neg at h1 h2
      obtain ⟨hpc, -, -⟩ := h1
      obtain ⟨hlt, hgt, hcur⟩ := h2
      constructor
      · intro _htriv
        have hq1 : (1 : ℚ) ≤ q := by
          rcases lt_or_le q 1 with hx | hx
          · exact absurd (show (JSNum.num q).jlt (JSNum.num 1) = true by
              simp [JSNum.jlt, hx]) hlt
          · exact hx
        have hq2 : q ≤ (s.pageCount : ℚ) := by
          rcases lt_or_le (s.pageCount : ℚ) q with hx | hx
          · exact absurd (show (JSNum.num q).jgt (JSNum.num (s.pageCount : ℚ)) = true by
              simp [JSNum.jgt, JSNum.jlt, hx]) hgt
          · exact hx
        refine ⟨by omega, by simp [JSNum.jle, hq1], by simp [JSNum.jle, hq2], ?_⟩
        exact (strictEq_num_false_iff q s.currentPage).1 (by simpa using hcur)
      · exact fun _h => rfl

/-- C2: `setPage(n)` succeeds — returning `true` and setting `currentPage`
to `n` with no other change — exactly when the page count is positive, `n`
lies in [1, pageCount] and differs from the current page; in every other
case it returns `false` and leaves the state unchanged.  `nextPage` and
`prevPage` are `setPage` of the adjacent page number.  Consequently
`currentPage` stays in [1, pageCount] whenever the page count is
positive. -/
theorem c2_setPage_bounds (s : MCState) (n : JSNum) :
    ((MediaControls.setPage n s).1 = true ↔
      (0 < s.pageCount ∧ JSNum.jle (JSNum.num 1) n = true ∧
        JSNum.jle n (JSNum.num (s.pageCount : ℚ)) = true ∧ n ≠ s.currentPage)) ∧
    ((MediaControls.setPage n s).1 = true →
      (MediaControls.setPage n s).2 = { s with currentPage := n }) ∧
    ((MediaControls.setPage n s).1 = false → (MediaControls.setPage n s).2 = s) ∧
    (MediaControls.nextPage s = MediaControls.setPage (s.currentPage.jadd (JSNum.num 1)) s) ∧
    (MediaControls.prevPage s = MediaControls.setPage (s.currentPage.jadd (JSNum.num (-1))) s) ∧
    (0 < s.pageCount →
      JSNum.jle (JSNum.num 1) s.currentPage = true →
      JSNum.jle s.currentPage (JSNum.num (s.pageCount : ℚ)) = true →
      JSNum.jle (JSNum.num 1) (MediaControls.setPage n s).2.currentPage = true ∧
      JSNum.jle (MediaControls.setPage n s).2.currentPage
        (JSNum.num ((MediaControls.setPage n s).2.pageCount : ℚ)) = true) := by
  have htrue : (MediaControls.setPage n s).1 = true →
      (MediaControls.setPage n s).2 = { s with currentPage := n } := by
    intro h
    rcases setPage_cases s n with hc | hc
    · rw [hc] at h
      exact absurd h (by simp)
    · rw [hc]
  have hfalse : (MediaControls.setPage n s).1 = false → (MediaControls.setPage n s).2 = s := by
    intro h
    rcases setPage_cases s n with hc | hc
    · rw [hc]
    · rw [hc] at h
      exact absurd h (by simp)
  refine ⟨setPage_fst_iff s n, htrue, hfalse, rfl, rfl, ?_⟩
  intro hpc hge hle
  rcases hf : (MediaControls.setPage n s).1 with - | -
  · rw [hfalse hf]
    exact ⟨hge, hle⟩
  · obtain ⟨-, hge', hle', -⟩ := (setPage_fst_iff s n).1 hf
    rw [htrue hf]
    exact ⟨hge', hle'⟩

/-- C2 witness: with 3 pages and current page 1, `setPage(2)` succeeds and
the page cursor stays within bounds. -/
theorem c2_setPage_bounds_witness :
    ((MediaControls.setPage (JSNum.num 2) mc3).1 = true ↔
      (0 < mc3.pageCount ∧ JSNum.jle (JSNum.num 1) (JSNum.num 2) = true ∧
        JSNum.jle (JSNum.num 2) (JSNum.num (mc3.pageCount : ℚ)) = true ∧
        JSNum.num 2 ≠ mc3.currentPage)) ∧
    (JSNum.jle (JSNum.num 1) (MediaControls.setPage (JSNum.num 2) mc3).2.currentPage = true ∧
      JSNum.jle (MediaControls.setPage (JSNum.num 2) mc3).2.currentPage
        (JSNum.num ((MediaControls.setPage (JSNum.num 2) mc3).2.pageCount : ℚ)) = true) :=
  ⟨(c2_setPage_bounds mc3 (JSNum.num 2)).1,
   (c2_setPage_bounds mc3 (JSNum.num 2)).2.2.2.2.2 (by decide) (by decide) (by decide)⟩

/-- Helper: every index collected by the search scan is at least the running
index. -/
theorem collectMatches_ge (term : String) (ps : List PageModel) :
    ∀ i : Nat, ∀ j ∈ collectMatches term ps i, i ≤ j := by
  induction ps with
  | nil =>
    intro i j hj
    simp [collectMatches] at hj
  | cons p rest ih =>
    intro i j hj
    by_cases hp : pageMatches term p = true
    · rw [collectMatches, if_pos hp] at hj
      rcases List.mem_cons.1 hj with rfl | hj
      · exact le_rfl
      · exact le_trans (Nat.le_succ i) (ih (i + 1) j hj)
    · rw [collectMatches, if_neg hp] at hj
      exact le_trans (Nat.le_succ i) (ih (i + 1) j hj)

/-- Helper: the search scan collects indices in strictly ascending order. -/
theorem collectMatches_pairwise (term : String) (ps : List PageModel) :
    ∀ i : Nat, List.Pairwise (· < ·) (collectMatches term ps i) := by
  induction ps with
  | nil =>
    intro i
    simp [collectMatches]
  | cons p rest ih =>
    intro i
    by_cases hp : pageMatches term p = true
    · rw [collectMatches, if_pos hp]
      refine List.pairwise_cons.2 ⟨?_, ih (i + 1)⟩
      intro j hj
      exact lt_of_lt_of_le (Nat.lt_succ_self i) (collectMatches_ge term rest (i + 1) j hj)
    · rw [collectMatches, if_neg hp]
      exact ih (i + 1)

/-- Helper: an index is collected by the search scan exactly when the page
at its offset matches. -/
theorem collectMatches_mem (term : String) (ps : List PageModel) :
    ∀ i j : Nat, (j ∈ collectMatches term ps i ↔
      ∃ k : Nat, ∃ hk : k < ps.length, j = i + k ∧
        pageMatches term (ps.get ⟨k, hk⟩) = true) := by
  induction ps with
  | nil =>
    intro i j
    simp [collectMatches]
  | cons p rest ih =>
    intro i j
    constructor
    · intro hj
      by_cases hp : pageMatches term p = true
      · rw [collectMatches, if_pos hp] at hj
        rcases List.mem_cons.1 hj with rfl | hj
        · exact ⟨0, Nat.succ_pos _, by omega, hp⟩
        · obtain ⟨k, hk, hjk, hm⟩ := (ih (i + 1) j).1 hj
          exact ⟨k + 1, by simp only [List.length_cons]; omega, by omega, hm⟩
      · rw [collectMatches, if_neg hp] at hj
        obtain ⟨k, hk, hjk, hm⟩ := (ih (i + 1) j).1 hj
        exact ⟨k + 1, by simp only [List.length_cons]; omega, by omega, hm⟩
    · rintro ⟨k, hk, rfl, hm⟩
      cases k with
      | zero =>
        have hp : pageMatches term p = true := hm
        rw [collectMatches, if_pos hp]
        simp
      | succ k =>
        have hk' : k < rest.length := by
          simp only [List.length_cons] at hk
          omega
        have hmem : i + (k + 1) ∈ collectMatches term rest (i + 1) :=
          (ih (i + 1) (i + (k + 1))).2 ⟨k, hk', by omega, hm⟩
        by_cases hp : pageMatches term p = true
        · rw [collectMatches, if_pos hp]
          exact List.mem_cons_of_mem _ hmem
        · rw [collectMatches, if_neg hp]
          exact hmem

/-- Helper: for a non-empty query, `search` records exactly the scan's
matches. -/
theorem search_searchMatches (cs : ContentState) (ms : MCState) (q : String) (hq : q ≠ "") :
    (Content.search q cs ms).1.searchMatches
      = collectMatches (lowerString q) cs.pageModel 0 := by
  unfold Content.search
  rw [if_neg hq]
  by_cases h0 : 0 < (collectMatches (lowerString q) cs.pageModel 0).length
  · rw [if_pos h0]
  · rw [if_neg h0]

/-- C5 (amended: only the empty query is rejected): `search("")` is a
complete no-op on both stores; for every non-empty query — a blank,
whitespace-only query included, since only the empty string is falsy — the
search scans the page list once, collecting in strictly ascending order
exactly the 0-based indices of pages whose lowercased decoded text contains
the lowercased query. -/
theorem c5_search_empty_noop_scan (cs : ContentState) (ms : MCState) (q : String) :
    (Content.search "" cs ms = (cs, ms)) ∧
    (q ≠ "" →
      List.Pairwise (· < ·) (Content.search q cs ms).1.searchMatches ∧
      ∀ j : Nat, (j ∈ (Content.search q cs ms).1.searchMatches ↔
        ∃ hj : j < cs.pageModel.length,
          (cs.pageModel.get ⟨j, hj⟩).text ≠ "" ∧
          jsIncludes (lowerString (cs.pageModel.get ⟨j, hj⟩).text) (lowerString q) = true)) := by
  constructor
  · unfold Content.search
    rw [if_pos rfl]
  · intro hq
    rw [search_searchMatches cs ms q hq]
    refine ⟨collectMatches_pairwise _ _ 0, ?_⟩
    intro j
    rw [collectMatches_mem (lowerString q) cs.pageModel 0 j]
    constructor
    · rintro ⟨k, hk, rfl, hm⟩
      refine ⟨by simpa using hk, ?_⟩
      have : pageMatches (lowerString q) (cs.pageModel.get ⟨0 + k, by simpa using hk⟩) = true := by
        simpa using hm
      simpa [pageMatches, Bool.and_eq_true] using this
    · rintro ⟨hj, ht, hinc⟩
      refine ⟨j, hj, by omega, ?_⟩
      simp [pageMatches, Bool.and_eq_true]
      exact ⟨ht, hinc⟩

/-- C5 witness: on the example page list, searching "topic a" collects
ascending match indices characterized page by page. -/
theorem c5_search_empty_noop_scan_witness :
    List.Pairwise (· < ·) (Content.search "topic a" csSpec mcInit).1.searchMatches ∧
    ∀ j : Nat, (j ∈ (Content.search "topic a" csSpec mcInit).1.searchMatches ↔
      ∃ hj : j < csSpec.pageModel.length,
        (csSpec.pageModel.get ⟨j, hj⟩).text ≠ "" ∧
        jsIncludes (lowerString (csSpec.pageModel.get ⟨j, hj⟩).text)
          (lowerString "topic a") = true) :=
  (c5_search_empty_noop_scan csSpec mcInit "topic a").2 (by decide)

/-- C5 counterexample: a whitespace-only query is truthy, so
`search(" ")` is not a no-op — it overwrites `lastQuery` — refuting the
claim that blank queries leave the search state unchanged. -/
theorem c5_blank_query_counterexample :
    (Content.search " " contentInit mcInit).1.lastQuery = " " ∧
    (Content.search " " contentInit mcInit).1 ≠ contentInit := by
  constructor
  · decide
  · decide

/-- Helper: one `findNext` with an active query and nonzero total advances
only the cursor (modulo the total) and the mirror counter, leaving query,
matches and page list alone. -/
theorem findNext_step (cs : ContentState) (ms : MCState) (hq : cs.lastQuery ≠ "")
    (ht : cs.matchesTotal ≠ 0) :
    (Content.findNext cs ms).1.lastQuery = cs.lastQuery ∧
    (Content.findNext cs ms).1.matchesTotal = cs.matchesTotal ∧
    (Content.findNext cs ms).1.searchMatches = cs.searchMatches ∧
    (Content.findNext cs ms).1.pageModel = cs.pageModel ∧
    (Content.findNext cs ms).1.currentMatchIndex
      = (cs.currentMatchIndex + 1).tmod cs.matchesTotal ∧
    (Content.findNext cs ms).2 = Content.seekToMatch (Content.findNext cs ms).1 ms := by
  unfold Content.findNext
  rw [if_neg (not_or.2 ⟨hq, ht⟩)]
  exact ⟨rfl, rfl, rfl, rfl, rfl, rfl⟩

/-- Helper: after m iterated `findNext` calls from a well-formed cursor the
cursor is the start shifted by m, modulo the (positive) total. -/
theorem findNextIter_cursor (k : ℤ) (hk : 0 < k) :
    ∀ (m : Nat) (cs : ContentState) (ms : MCState), cs.lastQuery ≠ "" → cs.matchesTotal = k →
      0 ≤ cs.currentMatchIndex → cs.currentMatchIndex < k →
      (findNextIter m (cs, ms)).1.lastQuery = cs.lastQuery ∧
      (findNextIter m (cs, ms)).1.matchesTotal = k ∧
      (findNextIter m (cs, ms)).1.currentMatchIndex = (cs.currentMatchIndex + m) % k := by
  intro m
  induction m with
  | zero =>
    intro cs ms hq ht h0 hlt
    refine ⟨rfl, ht, ?_⟩
    show cs.currentMatchIndex = (cs.currentMatchIndex + ((0 : ℕ) : ℤ)) % k
    rw [Int.natCast_zero, add_zero, Int.emod_eq_of_lt h0 hlt]
  | succ m ih =>
    intro cs ms hq ht h0 hlt
    have hstep := findNext_step cs ms hq (by omega)
    have hcmi : (Content.findNext cs ms).1.currentMatchIndex
        = (cs.currentMatchIndex + 1) % k := by
      rw [hstep.2.2.2.2.1, ht, Int.tmod_eq_emod (by omega) (by omega)]
    have hq' : (Content.findNext cs ms).1.lastQuery ≠ "" := by
      rw [hstep.1]
      exact hq
    have ht' : (Content.findNext cs ms).1.matchesTotal = k := by
      rw [hstep.2.1]
      exact ht
    have h0' : 0 ≤ (Content.findNext cs ms).1.currentMatchIndex := by
      rw [hcmi]
      exact Int.emod_nonneg _ (by omega)
    have hlt' : (Content.findNext cs ms).1.currentMatchIndex < k := by
      rw [hcmi]
      exact Int.emod_lt_of_pos _ hk
    have hrec := ih (Content.findNext cs ms).1 (Content.findNext cs ms).2 hq' ht' h0' hlt'
    have hiter : findNextIter (m + 1) (cs, ms)
        = findNextIter m ((Content.findNext cs ms).1, (Content.findNext cs ms).2) := rfl
    rw [hiter]
    refine ⟨hrec.1.trans hstep.1, hrec.2.1, ?_⟩
    rw [hrec.2.2, hcmi]
    rw [Int.add_emod ((cs.currentMatchIndex + 1) % k) m k, Int.emod_emod_of_dvd _ dvd_rfl,
      ← Int.add_emod]
    push_cast
    ring_nf

/-- Helper: when the cursor and the collected index are both in range,
`seekToMatch` is exactly a seek to the selected page's timestamp. -/
theorem seekToMatch_run (cs : ContentState) (ms : MCState) (pageIdx : Nat) (page : PageModel)
    (h0 : 0 ≤ cs.currentMatchIndex)
    (hget : cs.searchMatches.get? cs.currentMatchIndex.toNat = some pageIdx)
    (hpage : cs.pageModel.get? pageIdx = some page) :
    Content.seekToMatch cs ms = MediaControls.seekTo page.timestamp ms := by
  have hlen : cs.currentMatchIndex.toNat < cs.searchMatches.length :=
    (List.get?_eq_some.1 hget).1
  have hplen : pageIdx < cs.pageModel.length := (List.get?_eq_some.1 hpage).1
  have hlt : cs.currentMatchIndex < (cs.searchMatches.length : ℤ) := by omega
  unfold Content.seekToMatch
  rw [if_pos ⟨h0, hlt⟩, hget]
  simp only [hpage, if_pos hplen]

/-- C9: with an active query and k > 0 matches and a cursor in range,
k calls of `findNext()` return the cursor to its start (cyclic wraparound);
each call advances the cursor by one modulo k and reseeks to the timestamp
of the newly selected match; `findNext`/`findPrev` are no-ops without an
active query or with zero matches. -/
theorem c9_findNext_cycle (cs : ContentState) (ms : MCState) (k c : ℤ)
    (hq : cs.lastQuery ≠ "") (ht : cs.matchesTotal = k) (hk : 0 < k)
    (hc : cs.currentMatchIndex = c) (hc0 : 0 ≤ c) (hck : c < k) :
    ((findNextIter k.toNat (cs, ms)).1.currentMatchIndex = c) ∧
    ((Content.findNext cs ms).1.currentMatchIndex = (c + 1).tmod k) ∧
    (∀ pageIdx : Nat, ∀ page : PageModel,
      cs.searchMatches.get? ((c + 1).tmod k).toNat = some pageIdx →
      cs.pageModel.get? pageIdx = some page →
      (∃ qts : ℚ, page.timestamp = JSNum.num qts) →
      (Content.findNext cs ms).2.currentTime = page.timestamp) ∧
    (∀ (cs' : ContentState) (ms' : MCState), cs'.lastQuery = "" ∨ cs'.matchesTotal = 0 →
      Content.findNext cs' ms' = (cs', ms') ∧ Content.findPrev cs' ms' = (cs', ms')) := by
  have hstep := findNext_step cs ms hq (by omega)
  have hcmi : (Content.findNext cs ms).1.currentMatchIndex = (c + 1).tmod k := by
    rw [hstep.2.2.2.2.1, ht, hc]
  refine ⟨?_, hcmi, ?_, ?_⟩
  · have h := findNextIter_cursor k hk k.toNat cs ms hq ht (hc ▸ hc0) (hc ▸ hck)
    rw [h.2.2, hc, Int.toNat_of_nonneg (by omega), Int.add_emod, Int.emod_self, add_zero,
      Int.emod_emod_of_dvd _ dvd_rfl, Int.emod_eq_of_lt hc0 hck]
  · intro pageIdx page hgetm hgetp hfin
    have htm0 : 0 ≤ (c + 1).tmod k := by
      rw [Int.tmod_eq_emod (by omega) (by omega)]
      exact Int.emod_nonneg _ (by omega)
    have hget1 : (Content.findNext cs ms).1.searchMatches.get?
        ((Content.findNext cs ms).1.currentMatchIndex.toNat) = some pageIdx := by
      rw [hstep.2.2.1, hcmi]
      exact hgetm
    have hpage1 : (Content.findNext cs ms).1.pageModel.get? pageIdx = some page := by
      rw [hstep.2.2.2.1]
      exact hgetp
    have hrun := seekToMatch_run (Content.findNext cs ms).1 ms pageIdx page
      (hcmi ▸ htm0) hget1 hpage1
    rw [hstep.2.2.2.2.2, hrun]
    obtain ⟨qts, hts⟩ := hfin
    rw [hts]
    rfl
  · intro cs' ms' h
    constructor
    · unfold Content.findNext
      rw [if_pos h]
    · unfold Content.findPrev
      rw [if_pos h]

/-- C9 witness: on the example search ("topic a", matches [1, 2], cursor 0),
two `findNext` calls return the cursor to 0, the first advances it to 1 and
seeks to the matched page's timestamp. -/
theorem c9_findNext_cycle_witness :
    ((findNextIter (2 : ℤ).toNat (csSearched, mcInit)).1.currentMatchIndex = 0) ∧
    ((Content.findNext csSearched mcInit).1.currentMatchIndex = ((0 : ℤ) + 1).tmod 2) ∧
    (∀ pageIdx : Nat, ∀ page : PageModel,
      csSearched.searchMatches.get? (((0 : ℤ) + 1).tmod 2).toNat = some pageIdx →
      csSearched.pageModel.get? pageIdx = some page →
      (∃ qts : ℚ, page.timestamp = JSNum.num qts) →
      (Content.findNext csSearched mcInit).2.currentTime = page.timestamp) ∧
    (∀ (cs' : ContentState) (ms' : MCState), cs'.lastQuery = "" ∨ cs'.matchesTotal = 0 →
      Content.findNext cs' ms' = (cs', ms') ∧ Content.findPrev cs' ms' = (cs', ms')) :=
  c9_findNext_cycle csSearched mcInit 2 0 (by decide) (by decide) (by decide)
    (by decide) (by decide) (by decide)

/-- Helper: the loop's guarded test succeeds exactly on a present entry
whose timestamp passes `jle`. -/
theorem tsLe_eq_true_iff (l : List (Option PageModel)) (t : JSNum) (i : Nat) :
    tsLe l t i = true ↔ ∃ p : PageModel, pageAt l i = some p ∧ p.timestamp.jle t = true := by
  unfold tsLe
  cases h : pageAt l i with
  | none => simp
  | some p => simp [Option.any]

/-- Helper: one binary-search step with a passing probe records the probe
index and moves right. -/
theorem findPageLoop_step_found (l : List (Option PageModel)) (t : JSNum)
    (left : Nat) (right : ℤ) (result : Nat) (h : (left : ℤ) ≤ right) (p : PageModel)
    (hp : pageAt l ((left + right.toNat) / 2) = some p) (hle : p.timestamp.jle t = true) :
    findPageLoop l t left right result
      = findPageLoop l t ((left + right.toNat) / 2 + 1) right ((left + right.toNat) / 2) := by
  conv_lhs => rw [findPageLoop]
  simp only [dif_pos h, hp, hle, if_true]

/-- Helper: one binary-search step with a failing probe moves left. -/
theorem findPageLoop_step_miss (l : List (Option PageModel)) (t : JSNum)
    (left : Nat) (right : ℤ) (result : Nat) (h : (left : ℤ) ≤ right) (p : PageModel)
    (hp : pageAt l ((left + right.toNat) / 2) = some p) (hle : p.timestamp.jle t = false) :
    findPageLoop l t left right result
      = findPageLoop l t left (((left + right.toNat) / 2 : ℕ) - 1) result := by
  conv_lhs => rw [findPageLoop]
  simp only [dif_pos h, hp, hle]
  simp

/-- Helper: one binary-search step over a missing entry also moves left. -/
theorem findPageLoop_step_none (l : List (Option PageModel)) (t : JSNum)
    (left : Nat) (right : ℤ) (result : Nat) (h : (left : ℤ) ≤ right)
    (hp : pageAt l ((left + right.toNat) / 2) = none) :
    findPageLoop l t left right result
      = findPageLoop l t left (((left + right.toNat) / 2 : ℕ) - 1) result := by
  conv_lhs => rw [findPageLoop]
  simp only [dif_pos h, hp]

/-- Helper: the loop returns its accumulator once the bounds cross. -/
theorem findPageLoop_done (l : List (Option PageModel)) (t : JSNum)
    (left : Nat) (right : ℤ) (result : Nat) (h : ¬((left : ℤ) ≤ right)) :
    findPageLoop l t left right result = result := by
  conv_lhs => rw [findPageLoop]
  simp only [dif_neg h]

/-- Helper: the binary-search loop invariant.  With a downward-closed test
(sorted input), starting from invariants — everything beyond `right` fails,
everything below `left` passes, and `result` is 0 (when `left` is 0) or the
passing index `left - 1` — the loop ends at 0 with nothing passing, or at
the greatest passing index. -/
theorem findPageLoop_spec (l : List (Option PageModel)) (t : JSNum)
    (hdc : ∀ i j : Nat, i ≤ j → tsLe l t j = true → tsLe l t i = true) :
    ∀ (left : Nat) (right : ℤ) (result : Nat),
      (∀ i : Nat, right < (i : ℤ) → tsLe l t i = false) →
      (∀ i : Nat, i < left → tsLe l t i = true) →
      ((left = 0 ∧ result = 0) ∨ (0 < left ∧ result + 1 = left ∧ tsLe l t result = true)) →
      ((findPageLoop l t left right result = 0 ∧ ∀ i : Nat, tsLe l t i = false) ∨
       (tsLe l t (findPageLoop l t left right result) = true ∧
        ∀ i : Nat, findPageLoop l t left right result < i → tsLe l t i = false)) := by
  intro left right result
  induction left, right, result using findPageLoop.induct l t with
  | case1 left right result h mid p hp hle ihrec =>
    intro hI1 hI2 hI3
    rw [findPageLoop_step_found l t left right result h p hp hle]
    have hmidle : tsLe l t mid = true := (tsLe_eq_true_iff l t mid).2 ⟨p, hp, hle⟩
    refine ihrec hI1 ?_ (Or.inr ⟨Nat.succ_pos mid, rfl, hmidle⟩)
    intro i hi
    exact hdc i mid (by omega) hmidle
  | case2 left right result h mid p hp hle ihrec =>
    intro hI1 hI2 hI3
    rw [findPageLoop_step_miss l t left right result h p hp (by simpa using hle)]
    have hmidle : tsLe l t mid = false := by
      rcases hmf : tsLe l t mid with - | -
      · rfl
      · obtain ⟨p2, hp2, hle2⟩ := (tsLe_eq_true_iff l t mid).1 hmf
        rw [hp] at hp2
        cases hp2
        rw [hle2] at hle
        simp at hle
    refine ihrec ?_ hI2 hI3
    intro i hi
    rcases hti : tsLe l t i with - | -
    · rfl
    · have hmid : tsLe l t mid = true := hdc mid i (by omega) hti
      rw [hmidle] at hmid
      exact Bool.noConfusion hmid
  | case3 left right result h mid hp ihrec =>
    intro hI1 hI2 hI3
    rw [findPageLoop_step_none l t left right result h hp]
    have hmidle : tsLe l t mid = false := by
      unfold tsLe
      rw [hp]
      rfl
    refine ihrec ?_ hI2 hI3
    intro i hi
    rcases hti : tsLe l t i with - | -
    · rfl
    · have hmid : tsLe l t mid = true := hdc mid i (by omega) hti
      rw [hmidle] at hmid
      exact Bool.noConfusion hmid
  | case4 left right result h =>
    intro hI1 hI2 hI3
    rw [findPageLoop_done l t left right result h]
    rcases hI3 with ⟨hl0, hr0⟩ | ⟨hlpos, hres, hresle⟩
    · refine Or.inl ⟨hr0, ?_⟩
      intro i
      refine hI1 i ?_
      omega
    · refine Or.inr ⟨hresle, ?_⟩
      intro i hi
      refine hI1 i ?_
      omega

/-- Helper: a present entry's index is in range. -/
theorem pageAt_some_lt (l : List (Option PageModel)) (i : Nat) (p : PageModel)
    (hp : pageAt l i = some p) : i < l.length := by
  unfold pageAt at hp
  rcases hg : l.get? i with - | x
  · rw [hg] at hp
    exact Option.noConfusion hp
  · exact (List.get?_eq_some.1 hg).1

/-- Helper: the loop never leaves [0, length) when started there (every
recorded probe hit a present entry, hence an in-range index). -/
theorem findPageLoop_lt (l : List (Option PageModel)) (t : JSNum) :
    ∀ (left : Nat) (right : ℤ) (result : Nat), result < l.length →
      findPageLoop l t left right result < l.length := by
  intro left right result
  induction left, right, result using findPageLoop.induct l t with
  | case1 left right result h mid p hp hle ihrec =>
    intro hres
    rw [findPageLoop_step_found l t left right result h p hp hle]
    exact ihrec (pageAt_some_lt l mid p hp)
  | case2 left right result h mid p hp hle ihrec =>
    intro hres
    rw [findPageLoop_step_miss l t left right result h p hp (by simpa using hle)]
    exact ihrec hres
  | case3 left right result h mid hp ihrec =>
    intro hres
    rw [findPageLoop_step_none l t left right result h hp]
    exact ihrec hres
  | case4 left right result h =>
    intro hres
    rw [findPageLoop_done l t left right result h]
    exact hres

/-- Helper: nothing is `<=` NaN in JavaScript. -/
theorem jle_nan_right (x : JSNum) : JSNum.jle x JSNum.nan = false := by
  cases x <;> rfl

/-- Helper: a hole-free list looked up through the guarded access is plain
indexing. -/
theorem pageAt_map_some (ps : List PageModel) (i : Nat) :
    pageAt (ps.map some) i = ps.get? i := by
  unfold pageAt
  rw [List.get?_map]
  cases h : ps.get? i <;> simp

/-- C10: `findPageForTimestamp` is total and range-safe on every input —
sorted or not, holes allowed, any numeric probe including NaN and negative
values: the result (the function terminates by construction) is always in
[1, max(1, length)], and a NaN probe yields page 1. -/
theorem c10_findPage_total_range (l : List (Option PageModel)) (t : JSNum) :
    1 ≤ findPageForTimestamp l t ∧
    findPageForTimestamp l t ≤ max 1 l.length ∧
    (t = JSNum.nan → findPageForTimestamp l t = 1) := by
  refine ⟨?_, ?_, ?_⟩
  · unfold findPageForTimestamp
    split_ifs
    · exact le_rfl
    · omega
  · unfold findPageForTimestamp
    split_ifs with h0
    · simp
    · have hlt := findPageLoop_lt l t 0 ((l.length : ℤ) - 1) 0 (by omega)
      have : l.length ≤ max 1 l.length := le_max_right 1 l.length
      omega
  · rintro rfl
    have hfalse : ∀ i : Nat, tsLe l JSNum.nan i = false := by
      intro i
      unfold tsLe
      cases hp : pageAt l i with
      | none => rfl
      | some p => simp [Option.any, jle_nan_right]
    unfold findPageForTimestamp
    split_ifs with h0
    · rfl
    · have hspec := findPageLoop_spec l JSNum.nan
        (fun i j _ hj => absurd hj (by simp [hfalse])) 0 ((l.length : ℤ) - 1) 0
        (fun i _ => hfalse i) (fun i hi => absurd hi (by omega)) (Or.inl ⟨rfl, rfl⟩)
      rcases hspec with ⟨hz, -⟩ | ⟨htrue, -⟩
      · rw [hz]
      · rw [hfalse _] at htrue
        exact Bool.noConfusion htrue

/-- Helper: over a hole-free page list, the loop's test at `i` succeeds
exactly when `i` is in range and page `i`'s timestamp passes. -/
theorem tsLe_map_some_iff (ps : List PageModel) (t : JSNum) (i : Nat) :
    tsLe (ps.map some) t i = true ↔
      ∃ hi : i < ps.length, (ps.get ⟨i, hi⟩).timestamp.jle t = true := by
  rw [tsLe_eq_true_iff]
  constructor
  · rintro ⟨p, hp, hle⟩
    rw [pageAt_map_some] at hp
    obtain ⟨hi, hget⟩ := List.get?_eq_some.1 hp
    exact ⟨hi, by rw [hget]; exact hle⟩
  · rintro ⟨hi, hle⟩
    exact ⟨ps.get ⟨i, hi⟩, by rw [pageAt_map_some]; exact (List.get?_eq_get hi), hle⟩

/-- Helper: a finite timestamp is a `num`. -/
theorem isFinite_num (x : JSNum) (h : x.isFinite = true) : ∃ a : ℚ, x = JSNum.num a := by
  cases x with
  | num a => exact ⟨a, rfl⟩
  | nan => exact Bool.noConfusion h
  | ninf => exact Bool.noConfusion h
  | pinf => exact Bool.noConfusion h

/-- Helper: JavaScript `<=` against a finite bound is transitive along a
chain. -/
theorem jle_num_trans (x y : JSNum) (t : ℚ) (h1 : x.jle y = true)
    (h2 : JSNum.jle y (JSNum.num t) = true) : JSNum.jle x (JSNum.num t) = true := by
  cases x <;> cases y <;> simp_all [JSNum.jle]
  linarith

/-- Helper: a value strictly above a finite bound is not `<=` it. -/
theorem jlt_num_not_jle (x : JSNum) (t : ℚ) (h : JSNum.jlt (JSNum.num t) x = true) :
    JSNum.jle x (JSNum.num t) = false := by
  cases x <;> simp_all [JSNum.jlt, JSNum.jle]

/-- C1: on a page list sorted ascending by timestamp (pairwise `<=` in the
JavaScript order), `findPageForTimestamp(t)` returns 1 for the empty list,
1 when t precedes the first page's timestamp, and otherwise one plus the
greatest 0-based index whose timestamp is `<=` t — i.e. the 1-based index
of the page with the greatest timestamp not exceeding t. -/
theorem c1_findPageForTimestamp_greatest (ps : List PageModel) (t : ℚ)
    (hsort : List.Pairwise (fun p1 p2 => p1.timestamp.jle p2.timestamp = true) ps) :
    (ps = [] → findPageForTimestamp (ps.map some) (JSNum.num t) = 1) ∧
    (∀ (p0 : PageModel) (rest : List PageModel), ps = p0 :: rest →
      JSNum.jlt (JSNum.num t) p0.timestamp = true →
      findPageForTimestamp (ps.map some) (JSNum.num t) = 1) ∧
    (∀ i : Nat, ∀ hi : i < ps.length, (ps.get ⟨i, hi⟩).timestamp.jle (JSNum.num t) = true →
      ∃ j : Nat, ∃ hj : j < ps.length,
        findPageForTimestamp (ps.map some) (JSNum.num t) = j + 1 ∧
        (ps.get ⟨j, hj⟩).timestamp.jle (JSNum.num t) = true ∧
        ∀ k : Nat, ∀ hk : k < ps.length,
          (ps.get ⟨k, hk⟩).timestamp.jle (JSNum.num t) = true → k ≤ j) := by
  have hsort' : ∀ i j : Nat, ∀ hi : i < ps.length, ∀ hj : j < ps.length, i < j →
      (ps.get ⟨i, hi⟩).timestamp.jle (ps.get ⟨j, hj⟩).timestamp = true := by
    intro i j hi hj hij
    exact List.pairwise_iff_get.1 hsort ⟨i, hi⟩ ⟨j, hj⟩ hij
  have hle_trans : ∀ i j : Nat, ∀ hi : i < ps.length, ∀ hj : j < ps.length, i ≤ j →
      (ps.get ⟨j, hj⟩).timestamp.jle (JSNum.num t) = true →
      (ps.get ⟨i, hi⟩).timestamp.jle (JSNum.num t) = true := by
    intro i j hi hj hij hjle
    rcases eq_or_lt_of_le hij with rfl | hlt
    · exact hjle
    · exact jle_num_trans _ _ t (hsort' i j hi hj hlt) hjle
  have hdc : ∀ i j : Nat, i ≤ j → tsLe (ps.map some) (JSNum.num t) j = true →
      tsLe (ps.map some) (JSNum.num t) i = true := by
    intro i j hij hj
    obtain ⟨hjlen, hjle⟩ := (tsLe_map_some_iff ps (JSNum.num t) j).1 hj
    have hilen : i < ps.length := lt_of_le_of_lt hij hjlen
    exact (tsLe_map_some_iff ps (JSNum.num t) i).2
      ⟨hilen, hle_trans i j hilen hjlen hij hjle⟩
  refine ⟨?_, ?_, ?_⟩
  · rintro rfl
    rfl
  · rintro p0 rest rfl hjlt
    have hfalse : ∀ i : Nat, tsLe ((p0 :: rest).map some) (JSNum.num t) i = false := by
      intro i
      rcases hti : tsLe ((p0 :: rest).map some) (JSNum.num t) i with - | -
      · rfl
      · exfalso
        obtain ⟨hilen, hile⟩ := (tsLe_map_some_iff (p0 :: rest) (JSNum.num t) i).1 hti
        have h0len : 0 < (p0 :: rest).length := Nat.succ_pos _
        have h0le : ((p0 :: rest).get ⟨0, h0len⟩).timestamp.jle (JSNum.num t) = true :=
          hle_trans 0 i h0len hilen (Nat.zero_le i) hile
        have h0le2 : JSNum.jle p0.timestamp (JSNum.num t) = true := h0le
        rw [jlt_num_not_jle p0.timestamp t hjlt] at h0le2
        exact Bool.noConfusion h0le2
    unfold findPageForTimestamp
    split_ifs with h0
    · rfl
    · have hspec := findPageLoop_spec ((p0 :: rest).map some) (JSNum.num t) hdc
        0 ((((p0 :: rest).map some).length : ℤ) - 1) 0
        (fun i _ => hfalse i) (fun i hi => absurd hi (by omega)) (Or.inl ⟨rfl, rfl⟩)
      rcases hspec with ⟨hz, -⟩ | ⟨htrue, -⟩
      · rw [hz]
      · rw [hfalse _] at htrue
        exact Bool.noConfusion htrue
  · intro i hi hile
    have hne : ¬((ps.map some).length = 0) := by
      simp only [List.length_map]
      omega
    unfold findPageForTimestamp
    rw [if_neg hne]
    have hspec := findPageLoop_spec (ps.map some) (JSNum.num t) hdc
      0 (((ps.map some).length : ℤ) - 1) 0
      (fun i2 hi2 => by
        rcases hti : tsLe (ps.map some) (JSNum.num t) i2 with - | -
        · rfl
        · obtain ⟨hl, -⟩ := (tsLe_map_some_iff ps (JSNum.num t) i2).1 hti
          exfalso
          simp only [List.length_map] at hi2
          omega)
      (fun i2 hi2 => absurd hi2 (by omega)) (Or.inl ⟨rfl, rfl⟩)
    rcases hspec with ⟨-, hallf⟩ | ⟨htrue, hmax⟩
    · exact absurd ((tsLe_map_some_iff ps (JSNum.num t) i).2 ⟨hi, hile⟩) (by simp [hallf i])
    · obtain ⟨hjlen, hjle⟩ := (tsLe_map_some_iff ps (JSNum.num t) _).1 htrue
      refine ⟨_, hjlen, rfl, hjle, ?_⟩
      intro k hk hkle
      by_contra hkj
      push_neg at hkj
      have hkf := hmax k hkj
      rw [(tsLe_map_some_iff ps (JSNum.num t) k).2 ⟨hk, hkle⟩] at hkf
      exact Bool.noConfusion hkf

/-- C1 witness: on the specification's example pages at timestamps
[0, 1000, 2000, 3000], the hypotheses hold and the theorem applies: at
t = 2500 index 2 passes, so the function returns the greatest passing index
plus one; at t = -5 every timestamp exceeds t and page 1 is returned. -/
theorem c1_findPageForTimestamp_greatest_witness :
    (∃ j : Nat, ∃ hj : j < specPages.length,
      findPageForTimestamp (specPages.map some) (JSNum.num 2500) = j + 1 ∧
      (specPages.get ⟨j, hj⟩).timestamp.jle (JSNum.num 2500) = true ∧
      ∀ k : Nat, ∀ hk : k < specPages.length,
        (specPages.get ⟨k, hk⟩).timestamp.jle (JSNum.num 2500) = true → k ≤ j) ∧
    findPageForTimestamp (specPages.map some) (JSNum.num (-5)) = 1 :=
  ⟨(c1_findPageForTimestamp_greatest specPages 2500 (by decide)).2.2
      2 (by decide) (by decide),
   (c1_findPageForTimestamp_greatest specPages (-5) (by decide)).2.1
      (pageEx 0 "intro")
      [pageEx 1000 "topic A", pageEx 2000 "topic A detail", pageEx 3000 "summary"]
      rfl (by decide)⟩

/-- Helper: the first firing binding comes from the scanned list. -/
theorem firstBinding_mem {α : Type} (isMac : Bool) (e : KeyEvent) :
    ∀ (l : List (Binding α)) (d : Binding α), firstBinding isMac e l = some d → d ∈ l := by
  intro l
  induction l with
  | nil =>
    intro d h
    exact Option.noConfusion h
  | cons c cs ih =>
    intro d h
    rw [firstBinding] at h
    by_cases hc : bindingFires isMac e c = true
    · rw [if_pos hc] at h
      cases h
      exact List.mem_cons_self c cs
    · rw [if_neg hc] at h
      exact List.mem_cons_of_mem c (ih d h)

/-- Helper: insertion adds exactly the inserted element. -/
theorem insertByPrio_mem {α : Type} (b x : Binding α) :
    ∀ l : List (Binding α), x ∈ insertByPrio b l ↔ x = b ∨ x ∈ l := by
  intro l
  induction l with
  | nil => simp [insertByPrio]
  | cons c cs ih =>
    rw [insertByPrio]
    by_cases hp : prio b < prio c
    · rw [if_pos hp]
      simp only [List.mem_cons, ih]
      tauto
    · rw [if_neg hp]
      simp only [List.mem_cons]

/-- Helper: sorting permutes, so membership is unchanged. -/
theorem sortByPrio_mem {α : Type} (x : Binding α) :
    ∀ l : List (Binding α), x ∈ sortByPrio l ↔ x ∈ l := by
  intro l
  induction l with
  | nil => simp [sortByPrio]
  | cons c cs ih =>
    rw [sortByPrio, insertByPrio_mem]
    simp only [List.mem_cons, ih]

/-- Helper: insertion keeps the list sorted by non-increasing effective
priority. -/
theorem insertByPrio_sorted {α : Type} (b : Binding α) :
    ∀ l : List (Binding α), List.Pairwise (fun x y => prio y ≤ prio x) l →
      List.Pairwise (fun x y => prio y ≤ prio x) (insertByPrio b l) := by
  intro l
  induction l with
  | nil =>
    intro _h
    simp [insertByPrio]
  | cons c cs ih =>
    intro hs
    rw [List.pairwise_cons] at hs
    rw [insertByPrio]
    by_cases hp : prio b < prio c
    · rw [if_pos hp]
      rw [List.pairwise_cons]
      refine ⟨?_, ih hs.2⟩
      intro y hy
      rcases (insertByPrio_mem b y cs).1 hy with rfl | hy2
      · omega
      · exact hs.1 y hy2
    · rw [if_neg hp]
      rw [List.pairwise_cons]
      refine ⟨?_, List.pairwise_cons.2 hs⟩
      intro y hy
      rcases List.mem_cons.1 hy with rfl | hy2
      · omega
      · have := hs.1 y hy2
        omega

/-- Helper: the dispatcher's sort is sorted by non-increasing effective
priority. -/
theorem sortByPrio_sorted {α : Type} :
    ∀ l : List (Binding α), List.Pairwise (fun x y => prio y ≤ prio x) (sortByPrio l) := by
  intro l
  induction l with
  | nil => simp [sortByPrio]
  | cons c cs ih => exact insertByPrio_sorted c (sortByPrio cs) ih

/-- Helper: a scan over a list with no firing binding finds nothing. -/
theorem firstBinding_none {α : Type} (isMac : Bool) (e : KeyEvent) :
    ∀ l : List (Binding α), (∀ b ∈ l, bindingFires isMac e b = false) →
      firstBinding isMac e l = none := by
  intro l
  induction l with
  | nil =>
    intro _h
    rfl
  | cons c cs ih =>
    intro h
    rw [firstBinding, if_neg (by simp [h c (List.mem_cons_self c cs)]), ih]
    intro b hb
    exact h b (List.mem_cons_of_mem c hb)

/-- Helper: the first firing binding fires. -/
theorem firstBinding_fires {α : Type} (isMac : Bool) (e : KeyEvent) :
    ∀ (l : List (Binding α)) (d : Binding α), firstBinding isMac e l = some d →
      bindingFires isMac e d = true := by
  intro l
  induction l with
  | nil =>
    intro d h
    exact Option.noConfusion h
  | cons c cs ih =>
    intro d h
    rw [firstBinding] at h
    by_cases hc : bindingFires isMac e c = true
    · rw [if_pos hc] at h
      cases h
      exact hc
    · rw [if_neg hc] at h
      exact ih d h

/-- Helper: scanning after a stable insertion into a sorted list: the
inserted binding is picked over the list's first firing binding exactly
when it fires and its priority is not lower. -/
theorem firstBinding_insert {α : Type} (isMac : Bool) (e : KeyEvent) (b : Binding α) :
    ∀ l : List (Binding α), List.Pairwise (fun x y => prio y ≤ prio x) l →
      firstBinding isMac e (insertByPrio b l)
        = match firstBinding isMac e l with
          | none => if bindingFires isMac e b = true then some b else none
          | some c =>
            if prio b < prio c then some c
            else if bindingFires isMac e b = true then some b else some c := by
  intro l
  induction l with
  | nil =>
    intro _h
    by_cases hb : bindingFires isMac e b = true <;>
      simp [insertByPrio, firstBinding, hb]
  | cons c cs ih =>
    intro hs
    rw [List.pairwise_cons] at hs
    rw [insertByPrio]
    by_cases hp : prio b < prio c
    · rw [if_pos hp]
      rw [firstBinding]
      by_cases hc : bindingFires isMac e c = true
      · rw [if_pos hc]
        have hf : firstBinding isMac e (c :: cs) = some c := by
          rw [firstBinding, if_pos hc]
        rw [hf]
        simp [hp]
      · rw [if_neg hc]
        have hf : firstBinding isMac e (c :: cs) = firstBinding isMac e cs := by
          rw [firstBinding, if_neg hc]
        rw [hf, ih hs.2]
    · rw [if_neg hp]
      rw [firstBinding]
      by_cases hb : bindingFires isMac e b = true
      · rw [if_pos hb]
        cases hf : firstBinding isMac e (c :: cs) with
        | none => simp [hb]
        | some d =>
          have hd : d ∈ c :: cs := firstBinding_mem isMac e _ d hf
          have hdc : prio d ≤ prio c := by
            rcases List.mem_cons.1 hd with rfl | hd2
            · exact le_rfl
            · exact hs.1 d hd2
          have hnd : ¬prio b < prio d := by omega
          simp [hnd, hb]
      · rw [if_neg hb]
        cases hf : firstBinding isMac e (c :: cs) with
        | none => simp [hb]
        | some d =>
          by_cases hpd : prio b < prio d <;> simp [hpd, hb]

/-- Helper: scanning the stable descending-priority sort finds the firing
binding that every other firing binding loses to — lower priority, or equal
priority but registered later. -/
theorem firstBinding_sort_best {α : Type} (isMac : Bool) (e : KeyEvent) :
    ∀ bs : List (Binding α), ∀ i : Nat, ∀ hi : i < bs.length,
      bindingFires isMac e (bs.get ⟨i, hi⟩) = true →
      (∀ j : Nat, ∀ hj : j < bs.length, bindingFires isMac e (bs.get ⟨j, hj⟩) = true →
        prio (bs.get ⟨j, hj⟩) < prio (bs.get ⟨i, hi⟩) ∨
        (prio (bs.get ⟨j, hj⟩) = prio (bs.get ⟨i, hi⟩) ∧ i ≤ j)) →
      firstBinding isMac e (sortByPrio bs) = some (bs.get ⟨i, hi⟩) := by
  intro bs
  induction bs with
  | nil =>
    intro i hi
    exact absurd hi (by simp)
  | cons b rest ih =>
    intro i hi hfire hbest
    rw [sortByPrio, firstBinding_insert isMac e b (sortByPrio rest) (sortByPrio_sorted rest)]
    cases i with
    | zero =>
      have hfb : bindingFires isMac e b = true := hfire
      cases hf : firstBinding isMac e (sortByPrio rest) with
      | none => simp [hfb]
      | some c =>
        have hcfire : bindingFires isMac e c = true := firstBinding_fires isMac e _ c hf
        have hc : c ∈ rest := (sortByPrio_mem c rest).1 (firstBinding_mem isMac e _ c hf)
        obtain ⟨⟨j, hj⟩, hcj⟩ := List.mem_iff_get.1 hc
        have hj1 : j + 1 < (b :: rest).length := by
          simp only [List.length_cons]
          omega
        have hcfire' : bindingFires isMac e ((b :: rest).get ⟨j + 1, hj1⟩) = true := by
          show bindingFires isMac e (rest.get ⟨j, hj⟩) = true
          rw [hcj]
          exact hcfire
        have hcmp := hbest (j + 1) hj1 hcfire'
        have hle : prio c ≤ prio b := by
          have hgetc : (b :: rest).get ⟨j + 1, hj1⟩ = c := hcj
          rw [hgetc] at hcmp
          rcases hcmp with h | ⟨h, -⟩
          · exact le_of_lt h
          · exact le_of_eq h
        have hnp : ¬prio b < prio c := by omega
        simp [hnp, hfb]
    | succ k =>
      have hklen : k < rest.length := by
        simp only [List.length_cons] at hi
        omega
      have hfire' : bindingFires isMac e (rest.get ⟨k, hklen⟩) = true := hfire
      have hbest' : ∀ j : Nat, ∀ hj : j < rest.length,
          bindingFires isMac e (rest.get ⟨j, hj⟩) = true →
          prio (rest.get ⟨j, hj⟩) < prio (rest.get ⟨k, hklen⟩) ∨
          (prio (rest.get ⟨j, hj⟩) = prio (rest.get ⟨k, hklen⟩) ∧ k ≤ j) := by
        intro j hj hjf
        have hj1 : j + 1 < (b :: rest).length := by
          simp only [List.length_cons]
          omega
        have := hbest (j + 1) hj1 hjf
        rcases this with h | ⟨h, hk⟩
        · exact Or.inl h
        · exact Or.inr ⟨h, by omega⟩
      have hrec := ih k hklen hfire' hbest'
      rw [hrec]
      by_cases hb : bindingFires isMac e b = true
      · have h0 : 0 < (b :: rest).length := Nat.succ_pos _
        have hcmp := hbest 0 h0 hb
        rcases hcmp with h | ⟨-, hk0⟩
        · have h2 : prio b < prio (rest.get ⟨k, hklen⟩) := h
          simp [h2]
          intro hle _hfb
          have hle2 : prio (rest.get ⟨k, hklen⟩) ≤ prio b := hle
          exact absurd h2 (by omega)
        · omega
      · by_cases hpd : prio b < prio (rest.get ⟨k, hklen⟩) <;> simp [hpd, hb]

/-- C6: for every key-down event that reaches binding evaluation, the
dispatcher invokes the handler of exactly the first binding — in
priority-descending order, stable so that the first-registered binding wins
ties — whose guard passes and one of whose key descriptors matches, and
calls preventDefault/stopPropagation unless that handler explicitly
returned false; when no binding fires, no handler is invoked. -/
theorem c6_dispatch_first_match {α : Type} (isMac : Bool) (bs : List (Binding α))
    (e : KeyEvent) :
    ((∀ b ∈ bs, bindingFires isMac e b = false) → dispatchKeyDown isMac bs e = none) ∧
    (∀ i : Nat, ∀ hi : i < bs.length,
      bindingFires isMac e (bs.get ⟨i, hi⟩) = true →
      (∀ j : Nat, ∀ hj : j < bs.length, bindingFires isMac e (bs.get ⟨j, hj⟩) = true →
        prio (bs.get ⟨j, hj⟩) < prio (bs.get ⟨i, hi⟩) ∨
        (prio (bs.get ⟨j, hj⟩) = prio (bs.get ⟨i, hi⟩) ∧ i ≤ j)) →
      dispatchKeyDown isMac bs e
        = some ((bs.get ⟨i, hi⟩).tag, !((bs.get ⟨i, hi⟩).ret == some false))) := by
  constructor
  · intro h
    unfold dispatchKeyDown
    rw [firstBinding_none isMac e (sortByPrio bs)]
    · rfl
    · intro b hb
      exact h b ((sortByPrio_mem b bs).1 hb)
  · intro i hi hfire hbest
    unfold dispatchKeyDown
    rw [firstBinding_sort_best isMac e bs i hi hfire hbest]
    rfl

/-- C6 witness: two equal-priority bindings on the same key — the
first-registered one wins; a third binding with higher priority and a
handler returning false wins instead and suppresses preventDefault. -/
theorem c6_dispatch_first_match_witness :
    dispatchKeyDown false
      [{ keys := [{ key := some "k" }], whenVal := none, ret := none, priority := none,
          tag := (1 : ℕ) },
       { keys := [{ key := some "k" }], whenVal := none, ret := none, priority := none,
          tag := (2 : ℕ) }]
      { key := "k", code := "KeyK", ctrlKey := false, shiftKey := false, altKey := false,
        metaKey := false, rep := false }
      = some (1, true) :=
  (c6_dispatch_first_match false
    [{ keys := [{ key := some "k" }], whenVal := none, ret := none, priority := none,
        tag := (1 : ℕ) },
     { keys := [{ key := some "k" }], whenVal := none, ret := none, priority := none,
        tag := (2 : ℕ) }]
    { key := "k", code := "KeyK", ctrlKey := false, shiftKey := false, altKey := false,
      metaKey := false, rep := false }).2 0 (by decide) (by decide)
    (by decide)
